import Mathlib

/-!
Verification of the lifec_shell character-device buffer model, device
multiplexer, and runmd tokenizer / theme span parser, as a shallow
embedding of the Rust sources (src/char_device.rs, src/lib.rs,
src/runmd.rs, src/runmd/v1_lexer.rs, src/theme.rs).

Buffers are modelled as lists of Unicode scalar values; the sources under
verification only ever index them at character boundaries.  Machine usize
arithmetic is modelled on Nat, with the one subtraction that can underflow
made explicit (wrapping semantics, matching a release build).
-/

/-- Wrapping usize decrement, the release-build semantics of `n - 1` on a
Rust usize: `0 - 1` wraps to `2 ^ 64 - 1` (an overflow-checked build
panics there instead). -/
def usizeWrapSub1 (n : Nat) : Nat :=
  if n = 0 then 2 ^ 64 - 1 else n - 1

/-- Splits a buffer at the carriage-return line separator, as
`buffer.split('\r')` does in Rust: the result always has one more part
than there are separators, and empty parts are kept. -/
def splitCR : List Char → List (List Char)
  | [] => [[]]
  | c :: cs =>
    if c = '\r' then [] :: splitCR cs
    else
      match splitCR cs with
      | l :: rest => (c :: l) :: rest
      | [] => [[c]]

/-- Per-line character counts of a buffer:
`buffer.split('\r').map(|l| l.len())` from `CharDevice::write`. -/
def lineLengths (l : List Char) : List Nat :=
  (splitCR l).map List.length

/-- Logical keystroke events produced by the byte decoder
(the `terminal_keycode::KeyCode` values that `CharDevice` inspects). -/
inductive KeyCode where
  | printableChar (c : Char)
  | Backspace
  | Enter
  | ArrowLeft
  | ArrowRight
  | ArrowUp
  | ArrowDown
  | Unhandled
deriving DecidableEq, Repr

/-- Modelled from the spec: the printable character of a keycode, as
`terminal_keycode::KeyCode::printable` returns it; `Enter` decodes to the
carriage return that serves as the canonical line separator (spec section
4.1 and 4.2), navigation and unhandled keys are not printable. -/
def KeyCode.printable : KeyCode → Option Char
  | .printableChar c => some c
  | .Enter => some '\r'
  | _ => none

/-- Modelled from the spec: the byte decoder (dependency
`terminal_keycode::Decoder`) restricted to single-byte keycodes, which are
the only ones the claims exercise: carriage return decodes to `Enter`,
delete decodes to `Backspace`, printable ASCII decodes to itself, and
everything else degrades to `Unhandled` (spec section 4.1). -/
def decodeByte (b : Nat) : List KeyCode :=
  if b = 13 then [KeyCode.Enter]
  else if b = 127 then [KeyCode.Backspace]
  else if 32 ≤ b ∧ b ≤ 126 then [KeyCode.printableChar (Char.ofNat b)]
  else [KeyCode.Unhandled]

/-- The per-channel character device of src/char_device.rs: an editable
buffer, a derived per-line length index, a cursor offset and a current
line number.  The stateless part of the byte decoder is kept outside the
structure. -/
structure CharDevice where
  buffer : List Char
  line_info : List Nat
  cursor : Nat
  line : Nat
deriving DecidableEq, Repr

/-- The empty initial device (`CharDevice::default`). -/
def CharDevice.init : CharDevice :=
  { buffer := [], line_info := [], cursor := 0, line := 0 }

/-- Number of lines in the buffer (`CharDevice::lines`). -/
def CharDevice.lines (d : CharDevice) : Nat :=
  d.line_info.length

/-- Moves the cursor to `line_no` (`CharDevice::goto_line`): the new
cursor is the sum of the line lengths of lines `0 ..= line_no` plus one
separator per preceding line. -/
def CharDevice.goto_line (d : CharDevice) (line_no : Nat) : CharDevice :=
  let chars := (d.line_info.take (line_no + 1)).sum
  { d with cursor := chars + line_no }

/-- Moves the cursor up a line (`CharDevice::cursor_up`). -/
def CharDevice.cursor_up (d : CharDevice) : CharDevice :=
  if 0 < d.line then
    CharDevice.goto_line { d with line := d.line - 1 } (d.line - 1)
  else d

/-- Moves the cursor down a line (`CharDevice::cursor_down`).  The source
guard is `self.line < self.line_info.len() - 1` on usize, so the
subtraction wraps when the line index is empty. -/
def CharDevice.cursor_down (d : CharDevice) : CharDevice :=
  if d.line < usizeWrapSub1 d.line_info.length then
    CharDevice.goto_line { d with line := d.line + 1 } (d.line + 1)
  else d

/-- Moves the cursor left one character (`CharDevice::cursor_left`).  The
source guard is `self.cursor > 1 && !self.buffer.is_empty()`; after the
decrement it inspects the byte at `cursor + 1` (the old cursor index) and
decrements `line` (usize subtraction, wrapping) when it is the separator. -/
def CharDevice.cursor_left (d : CharDevice) : CharDevice :=
  if 1 < d.cursor ∧ d.buffer ≠ [] then
    let c := d.cursor - 1
    if d.buffer.get? (c + 1) = some '\r' then
      { d with cursor := c, line := usizeWrapSub1 d.line }
    else
      { d with cursor := c }
  else d

/-- Moves the cursor right one character (`CharDevice::cursor_right`):
guard `self.cursor < self.buffer.len()`; after the increment it inspects
the byte at `cursor - 1` (the old cursor index) and increments `line`
when it is the separator. -/
def CharDevice.cursor_right (d : CharDevice) : CharDevice :=
  if d.cursor < d.buffer.length then
    let c := d.cursor + 1
    if d.buffer.get? (c - 1) = some '\r' then
      { d with cursor := c, line := d.line + 1 }
    else
      { d with cursor := c }
  else d

/-- One iteration of the keycode loop in `CharDevice::write`: printable
characters are inserted at the cursor, backspace removes the character
before the cursor (decrementing `line`, never below zero, when the
removed character was a separator), and `Enter` additionally increments
`line`. -/
def CharDevice.processKeycode (d : CharDevice) (k : KeyCode) : CharDevice :=
  let d1 :=
    match k.printable with
    | some ch =>
      { d with buffer := d.buffer.insertIdx d.cursor ch, cursor := d.cursor + 1 }
    | none =>
      match k with
      | KeyCode.Backspace =>
        if 0 < d.cursor ∧ d.buffer ≠ [] then
          let c := d.cursor - 1
          let removed := d.buffer.get? c
          let d2 := { d with cursor := c, buffer := d.buffer.eraseIdx c }
          if (removed = some '\r' ∨ removed = some '\n') ∧ 0 < d2.line then
            { d2 with line := d2.line - 1 }
          else d2
        else d
      | _ => d
  if k = KeyCode.Enter then { d1 with line := d1.line + 1 } else d1

/-- The body of `CharDevice::write` for a list of decoded keycodes: the
keycode loop followed by the whole-buffer recomputation of the line
index. -/
def CharDevice.writeKeys (d : CharDevice) (ks : List KeyCode) : CharDevice :=
  let d1 := ks.foldl CharDevice.processKeycode d
  { d1 with line_info := lineLengths d1.buffer }

/-- Writes the next byte to the device (`CharDevice::write`). -/
def CharDevice.write (d : CharDevice) (next : Nat) : CharDevice :=
  d.writeKeys (decodeByte next)

/-- The cursor tail (`CharDevice::cursor_tail`): clamps to zero when the
cursor is at most one. -/
def CharDevice.cursor_tail (d : CharDevice) : Nat :=
  if 1 < d.cursor then d.cursor - 1 else 0

/-- Text before the cursor (`CharDevice::before_cursor`). -/
def CharDevice.before_cursor (d : CharDevice) : List Char :=
  if d.buffer ≠ [] then d.buffer.take d.cursor else []

/-- Text from the cursor tail onward (`CharDevice::after_cursor`). -/
def CharDevice.after_cursor (d : CharDevice) : List Char :=
  if d.buffer ≠ [] then d.buffer.drop d.cursor_tail else []

/-- Full buffer contents (`CharDevice::output`). -/
def CharDevice.output (d : CharDevice) : List Char :=
  d.buffer

/-- The line at `line_no`, if any (`CharDevice::get_line`). -/
def CharDevice.get_line (d : CharDevice) (line_no : Nat) : Option (List Char) :=
  (splitCR d.buffer).get? line_no

/-- Takes the buffer and resets the device to its initial state
(`CharDevice::take`): returns the drained text together with the reset
device. -/
def CharDevice.take (d : CharDevice) : List Char × CharDevice :=
  (d.buffer, CharDevice.init)

/-- States of a char device reachable from the empty initial state by the
public operations: byte writes, the four cursor moves, `goto_line` and
`take`. -/
inductive CharDevice.Reachable : CharDevice → Prop where
  | init : CharDevice.Reachable CharDevice.init
  | write (d : CharDevice) (b : Nat) :
      CharDevice.Reachable d → CharDevice.Reachable (d.write b)
  | up (d : CharDevice) :
      CharDevice.Reachable d → CharDevice.Reachable d.cursor_up
  | down (d : CharDevice) :
      CharDevice.Reachable d → CharDevice.Reachable d.cursor_down
  | left (d : CharDevice) :
      CharDevice.Reachable d → CharDevice.Reachable d.cursor_left
  | right (d : CharDevice) :
      CharDevice.Reachable d → CharDevice.Reachable d.cursor_right
  | goto (d : CharDevice) (n : Nat) :
      CharDevice.Reachable d → CharDevice.Reachable (d.goto_line n)
  | take (d : CharDevice) :
      CharDevice.Reachable d → CharDevice.Reachable d.take.2

theorem splitCR_ne_nil (l : List Char) : splitCR l ≠ [] := by
  cases l with
  | nil => simp [splitCR]
  | cons c cs =>
    simp only [splitCR]
    split
    · simp
    · split <;> simp_all

theorem lineLengths_ne_nil (l : List Char) : lineLengths l ≠ [] := by
  simpa [lineLengths] using splitCR_ne_nil l

/-- The separator-accounting identity of the derived line index:
summing the per-line lengths and one separator per boundary recovers the
buffer length. -/
theorem lineLengths_sum (l : List Char) :
    (lineLengths l).sum + ((lineLengths l).length - 1) = l.length := by
  induction l with
  | nil => simp [lineLengths, splitCR]
  | cons c cs ih =>
    by_cases hc : c = '\r'
    · have hne := lineLengths_ne_nil cs
      have hlen : 0 < (lineLengths cs).length := List.length_pos.mpr hne
      have hstep : lineLengths (c :: cs) = 0 :: lineLengths cs := by
        simp [lineLengths, splitCR, hc]
      rw [hstep]
      simp only [List.sum_cons, List.length_cons, List.length_cons]
      omega
    · obtain ⟨p, ps, h⟩ : ∃ p ps, splitCR cs = p :: ps := by
        cases h : splitCR cs with
        | nil => exact absurd h (splitCR_ne_nil cs)
        | cons p ps => exact ⟨p, ps, rfl⟩
      have hstep : lineLengths (c :: cs) = (p.length + 1) :: ps.map List.length := by
        simp [lineLengths, splitCR, hc, h]
      have ih2 : p.length + (ps.map List.length).sum +
          ((ps.map List.length).length + 1 - 1) = cs.length := by
        have h3 := ih
        rw [lineLengths, h] at h3
        simpa using h3
      rw [hstep]
      simp only [List.sum_cons, List.length_cons]
      omega

theorem cursor_up_buffer (d : CharDevice) : d.cursor_up.buffer = d.buffer := by
  unfold CharDevice.cursor_up CharDevice.goto_line
  split <;> rfl

theorem cursor_up_info (d : CharDevice) : d.cursor_up.line_info = d.line_info := by
  unfold CharDevice.cursor_up CharDevice.goto_line
  split <;> rfl

theorem cursor_down_buffer (d : CharDevice) : d.cursor_down.buffer = d.buffer := by
  unfold CharDevice.cursor_down CharDevice.goto_line
  split <;> rfl

theorem cursor_down_info (d : CharDevice) : d.cursor_down.line_info = d.line_info := by
  unfold CharDevice.cursor_down CharDevice.goto_line
  split <;> rfl

theorem cursor_left_buffer (d : CharDevice) : d.cursor_left.buffer = d.buffer := by
  simp only [CharDevice.cursor_left]
  split
  · split <;> rfl
  · rfl

theorem cursor_left_info (d : CharDevice) : d.cursor_left.line_info = d.line_info := by
  simp only [CharDevice.cursor_left]
  split
  · split <;> rfl
  · rfl

theorem cursor_right_buffer (d : CharDevice) : d.cursor_right.buffer = d.buffer := by
  simp only [CharDevice.cursor_right]
  split
  · split <;> rfl
  · rfl

theorem cursor_right_info (d : CharDevice) : d.cursor_right.line_info = d.line_info := by
  simp only [CharDevice.cursor_right]
  split
  · split <;> rfl
  · rfl

/-- Every reachable device with a non-empty buffer carries the line index
recomputed from its buffer. -/
theorem reachable_line_info (d : CharDevice) (h : CharDevice.Reachable d) :
    d.buffer ≠ [] → d.line_info = lineLengths d.buffer := by
  induction h with
  | init => intro h; exact absurd rfl h
  | write d b _ _ => intro _; rfl
  | up d _ ih =>
    intro hb
    rw [cursor_up_buffer] at hb
    rw [cursor_up_buffer, cursor_up_info]
    exact ih hb
  | down d _ ih =>
    intro hb
    rw [cursor_down_buffer] at hb
    rw [cursor_down_buffer, cursor_down_info]
    exact ih hb
  | left d _ ih =>
    intro hb
    rw [cursor_left_buffer] at hb
    rw [cursor_left_buffer, cursor_left_info]
    exact ih hb
  | right d _ ih =>
    intro hb
    rw [cursor_right_buffer] at hb
    rw [cursor_right_buffer, cursor_right_info]
    exact ih hb
  | goto d n _ ih => intro hb; exact ih hb
  | take d _ => intro h; exact absurd rfl h

/-- Concrete device for the cursor_up analysis: the state obtained by
typing `ab`, Enter, `cd` (buffer `ab\rcd`, two lines of length two,
cursor at the end, current line 1). -/
def devC4 : CharDevice :=
  { buffer := ['a', 'b', '\r', 'c', 'd'], line_info := [2, 2], cursor := 5, line := 1 }

/-- C4 counterexample: on `devC4`, whose current line 1 is in bounds to
move up, `cursor_up` moves `line` to 0 but sets `cursor` to 2, not to the
start of line 0 (which is 0: there are no preceding lines and no
preceding separators).  `goto_line` sums the lengths of lines `0 ..= target`,
so the cursor lands at the end of the target line. -/
theorem cursor_up_not_line_start :
    (CharDevice.cursor_up devC4).line = 0 ∧
    (CharDevice.cursor_up devC4).cursor = 2 ∧
    (CharDevice.cursor_up devC4).cursor ≠ (devC4.line_info.take 0).sum + 0 := by
  decide

/-- C4 amended: `cursor_up` (when `line > 0`) and `cursor_down` (when
`line + 1 < number of lines`) change `current_line` by one and then set
the cursor to the END of the target line: the sum of the lengths of lines
`0 ..= target` plus one separator per preceding line. -/
theorem cursor_up_down_goto_line_end (d : CharDevice) :
    (0 < d.line →
      d.cursor_up.line = d.line - 1 ∧
      d.cursor_up.cursor = (d.line_info.take (d.line - 1 + 1)).sum + (d.line - 1)) ∧
    (d.line + 1 < d.line_info.length →
      d.cursor_down.line = d.line + 1 ∧
      d.cursor_down.cursor = (d.line_info.take (d.line + 1 + 1)).sum + (d.line + 1)) := by
  constructor
  · intro h
    simp [CharDevice.cursor_up, CharDevice.goto_line, h]
  · intro h
    have hw : usizeWrapSub1 d.line_info.length = d.line_info.length - 1 := by
      unfold usizeWrapSub1
      rw [if_neg (by omega)]
    have hg : d.line < usizeWrapSub1 d.line_info.length := by omega
    simp [CharDevice.cursor_down, CharDevice.goto_line, hg]

/-- Witness for the amended C4 theorem at concrete states: moving up from
line 1 of `devC4` puts the cursor at the end of line 0 (offset 2), and
moving down from line 0 of the same buffer puts it at the end of line 1
(offset 5). -/
theorem cursor_up_down_goto_line_end_witness :
    ((CharDevice.cursor_up devC4).line = 1 - 1 ∧
      (CharDevice.cursor_up devC4).cursor = (devC4.line_info.take 1).sum + 0) ∧
    ((CharDevice.cursor_down { devC4 with cursor := 2, line := 0 }).line = 1 ∧
      (CharDevice.cursor_down { devC4 with cursor := 2, line := 0 }).cursor =
        (devC4.line_info.take 2).sum + 1) := by
  refine ⟨?_, ?_⟩
  · exact (cursor_up_down_goto_line_end devC4).1 (by decide)
  · exact (cursor_up_down_goto_line_end { devC4 with cursor := 2, line := 0 }).2 (by decide)

/-- C5: on a freshly created (empty) device, whose line index is empty,
`cursor_down` evaluates `line_info.len() - 1` on usize.  With the
wrapping semantics of a release build the guard `0 < 2 ^ 64 - 1` passes
and the state mutates to `line = 1`, `cursor = 1`; an overflow-checked
build panics on the subtraction instead.  Either way the operation is not
the no-op the specification promises. -/
theorem cursor_down_empty_underflows :
    CharDevice.cursor_down CharDevice.init =
      { buffer := [], line_info := [], cursor := 1, line := 1 } ∧
    CharDevice.cursor_down CharDevice.init ≠ CharDevice.init := by
  decide

/-- Concrete device for the cursor_left analysis: buffer `ab` with the
cursor between the two characters. -/
def devC6 : CharDevice :=
  { buffer := ['a', 'b'], line_info := [2], cursor := 1, line := 0 }

/-- C6 counterexample: `devC6` has a non-empty buffer and `cursor = 1 > 0`,
yet `cursor_left` leaves the cursor unchanged instead of decreasing it by
one: the source guard requires `cursor > 1`, not `cursor > 0`. -/
theorem cursor_left_at_one_noop :
    devC6.buffer ≠ [] ∧ 0 < devC6.cursor ∧
    (CharDevice.cursor_left devC6).cursor = devC6.cursor ∧
    (CharDevice.cursor_left devC6).cursor ≠ devC6.cursor - 1 := by
  decide

/-- C6 amended: `cursor_left` moves only when `cursor > 1` (at
`cursor = 1` it is a no-op); when it moves it decreases the cursor by
exactly one and decrements `current_line` (wrapping usize subtraction)
exactly when the character at the OLD cursor index is the separator.
`cursor_right` (when `cursor < len(buffer)`) increases the cursor by
exactly one and increments `current_line` exactly when the character at
the old cursor index is the separator. -/
theorem cursor_left_right_step (d : CharDevice) :
    (1 < d.cursor → d.buffer ≠ [] →
      d.cursor_left.cursor = d.cursor - 1 ∧
      d.cursor_left.line =
        (if d.buffer.get? d.cursor = some '\r' then usizeWrapSub1 d.line else d.line)) ∧
    (d.cursor < d.buffer.length →
      d.cursor_right.cursor = d.cursor + 1 ∧
      d.cursor_right.line =
        (if d.buffer.get? d.cursor = some '\r' then d.line + 1 else d.line)) := by
  constructor
  · intro h1 h2
    have hidx : d.cursor - 1 + 1 = d.cursor := by omega
    simp only [CharDevice.cursor_left, if_pos (And.intro h1 h2), hidx]
    split <;> simp
  · intro h
    have hidx : d.cursor + 1 - 1 = d.cursor := by omega
    simp only [CharDevice.cursor_right, if_pos h, hidx]
    split <;> simp

/-- Witness for the amended C6 theorem: on buffer `abc` with cursor 2,
`cursor_left` moves the cursor to 1 and keeps the line; on the same buffer
with cursor 0, `cursor_right` moves the cursor to 1 and keeps the line. -/
theorem cursor_left_right_step_witness :
    ((CharDevice.cursor_left { devC6 with buffer := ['a', 'b', 'c'], cursor := 2 }).cursor = 1 ∧
      (CharDevice.cursor_left { devC6 with buffer := ['a', 'b', 'c'], cursor := 2 }).line = 0) ∧
    ((CharDevice.cursor_right { devC6 with buffer := ['a', 'b', 'c'], cursor := 0 }).cursor = 1 ∧
      (CharDevice.cursor_right { devC6 with buffer := ['a', 'b', 'c'], cursor := 0 }).line = 0) := by
  refine ⟨?_, ?_⟩
  · have h := (cursor_left_right_step { devC6 with buffer := ['a', 'b', 'c'], cursor := 2 }).1
      (by decide) (by decide)
    simpa using h
  · have h := (cursor_left_right_step { devC6 with buffer := ['a', 'b', 'c'], cursor := 0 }).2
      (by decide)
    simpa using h

/-- C7: processing a Backspace event on a non-empty buffer with
`cursor > 0` (and the data-model bound `cursor <= len(buffer)` of spec
section 3) decreases the buffer length by exactly one and the cursor by
exactly one; on an empty buffer or at `cursor = 0` the buffer, cursor and
current line are unchanged. -/
theorem backspace_step (d : CharDevice) :
    (d.buffer ≠ [] → 0 < d.cursor → d.cursor ≤ d.buffer.length →
      (d.writeKeys [KeyCode.Backspace]).buffer.length + 1 = d.buffer.length ∧
      (d.writeKeys [KeyCode.Backspace]).cursor + 1 = d.cursor) ∧
    (d.cursor = 0 ∨ d.buffer = [] →
      (d.writeKeys [KeyCode.Backspace]).buffer = d.buffer ∧
      (d.writeKeys [KeyCode.Backspace]).cursor = d.cursor ∧
      (d.writeKeys [KeyCode.Backspace]).line = d.line) := by
  constructor
  · intro hb hc hle
    have hlt : d.cursor - 1 < d.buffer.length := by omega
    have herase : (d.buffer.eraseIdx (d.cursor - 1)).length = d.buffer.length - 1 :=
      List.length_eraseIdx_of_lt hlt
    simp only [CharDevice.writeKeys, List.foldl_cons, List.foldl_nil,
      CharDevice.processKeycode, KeyCode.printable, if_pos (And.intro hc hb)]
    split <;> (try split) <;> simp [herase] <;> omega
  · intro h
    have hguard : ¬(0 < d.cursor ∧ d.buffer ≠ []) := by
      rcases h with h | h
      · intro hcon; omega
      · intro hcon; exact hcon.2 h
    simp [CharDevice.writeKeys, CharDevice.processKeycode, KeyCode.printable, hguard]

/-- Witness for C7: backspace at the end of buffer `ab` removes one
character and moves the cursor from 2 to 1; backspace on the empty
initial device changes nothing. -/
theorem backspace_step_witness :
    ((({ buffer := ['a', 'b'], line_info := [2], cursor := 2,
          line := 0 : CharDevice }).writeKeys [KeyCode.Backspace]).buffer.length + 1 = 2 ∧
      (({ buffer := ['a', 'b'], line_info := [2], cursor := 2,
          line := 0 : CharDevice }).writeKeys [KeyCode.Backspace]).cursor + 1 = 2) ∧
    ((CharDevice.init.writeKeys [KeyCode.Backspace]).buffer = [] ∧
      (CharDevice.init.writeKeys [KeyCode.Backspace]).cursor = 0 ∧
      (CharDevice.init.writeKeys [KeyCode.Backspace]).line = 0) := by
  refine ⟨?_, ?_⟩
  · exact (backspace_step _).1 (by decide) (by decide) (by decide)
  · exact (backspace_step CharDevice.init).2 (Or.inr rfl)

/-- C8: in every state reachable from the empty initial device by writes,
cursor moves and takes, a non-empty buffer satisfies the line-index
invariant: the per-line lengths plus one separator per boundary sum to
the buffer length. -/
theorem line_info_invariant (d : CharDevice) (h : CharDevice.Reachable d)
    (hne : d.buffer ≠ []) :
    d.line_info.sum + (d.line_info.length - 1) = d.buffer.length := by
  rw [reachable_line_info d h hne]
  exact lineLengths_sum d.buffer

/-- Witness for C8: the state reached by writing the byte for `a` to the
initial device satisfies the invariant. -/
theorem line_info_invariant_witness :
    (CharDevice.init.write 97).line_info.sum +
      ((CharDevice.init.write 97).line_info.length - 1) =
      (CharDevice.init.write 97).buffer.length :=
  line_info_invariant _ (CharDevice.Reachable.write _ 97 CharDevice.Reachable.init)
    (by decide)

/-- C10: for a non-empty buffer with `2 <= cursor <= len(buffer)`,
`after_cursor` starts at index `cursor - 1` (the cursor tail), so the
character at `cursor - 1` is both the last character of `before_cursor`
and the first character of `after_cursor`, and the concatenation of the
two is one character longer than the buffer (so it can equal the buffer
only when `cursor <= 1`). -/
theorem after_cursor_overlap (d : CharDevice) (hb : d.buffer ≠ [])
    (h2 : 2 ≤ d.cursor) (hle : d.cursor ≤ d.buffer.length) :
    d.after_cursor = d.buffer.drop (d.cursor - 1) ∧
    d.before_cursor.getLast? = d.buffer.get? (d.cursor - 1) ∧
    d.after_cursor.head? = d.buffer.get? (d.cursor - 1) ∧
    d.before_cursor ++ d.after_cursor ≠ d.buffer := by
  have h1 : 1 < d.cursor := by omega
  have hafter : d.after_cursor = d.buffer.drop (d.cursor - 1) := by
    simp [CharDevice.after_cursor, CharDevice.cursor_tail, hb, h1]
  have hbefore : d.before_cursor = d.buffer.take d.cursor := by
    simp [CharDevice.before_cursor, hb]
  refine ⟨hafter, ?_, ?_, ?_⟩
  · rw [hbefore, List.getLast?_eq_getElem?]
    have hlen : (d.buffer.take d.cursor).length = d.cursor := by
      simp
      omega
    rw [hlen, List.getElem?_take, if_pos (by omega : d.cursor - 1 < d.cursor),
      List.get?_eq_getElem?]
  · rw [hafter, List.head?_eq_getElem?, List.getElem?_drop, List.get?_eq_getElem?,
      Nat.add_zero]
  · intro heq
    have hlen := congrArg List.length heq
    rw [List.length_append, hbefore, hafter] at hlen
    simp at hlen
    omega

/-- Concrete device for the C10 witness: buffer `abc` with cursor 2. -/
def devC10 : CharDevice :=
  { buffer := ['a', 'b', 'c'], line_info := [3], cursor := 2, line := 0 }

/-- Witness for C10: on `devC10`, `after_cursor = bc`, the character `b`
at index 1 closes `before_cursor` and opens `after_cursor`, and
`before_cursor ++ after_cursor = abbc` differs from the buffer. -/
theorem after_cursor_overlap_witness :
    devC10.after_cursor = devC10.buffer.drop 1 ∧
    devC10.before_cursor.getLast? = devC10.buffer.get? 1 ∧
    devC10.after_cursor.head? = devC10.buffer.get? 1 ∧
    devC10.before_cursor ++ devC10.after_cursor ≠ devC10.buffer :=
  after_cursor_overlap devC10 (by decide) (by decide) (by decide)

/-- The channel-to-device map of the shell (`Shell::char_devices`,
a map from u32 channel ids to char devices), modelled as an association
list with unique keys. -/
def lookupDevice (m : List (Nat × CharDevice)) (k : Nat) : Option CharDevice :=
  (m.find? (fun p => p.1 == k)).map (fun p => p.2)

/-- Replaces the device stored for an existing channel (the effect of
mutating through `char_devices.get_mut(&channel)`). -/
def updateDevice (m : List (Nat × CharDevice)) (k : Nat) (v : CharDevice) :
    List (Nat × CharDevice) :=
  m.map (fun p => if p.1 == k then (k, v) else p)

/-- The parts of the shell state that `Shell::on_run` reads and writes:
the device map, the currently viewed output channel (an i32, set from the
UI or from the last routed byte) and whether a connection is open. -/
structure ShellState where
  char_devices : List (Nat × CharDevice)
  channel : Int
  connection : Bool

/-- The byte-processing step of `Shell::on_run` (src/lib.rs): for one
received `(channel, byte)` pair, if a device exists for the channel then
(1) when the pair is for a non-zero channel different from the currently
viewed one, that device is drained via `take` first, (2) the byte is
written to the device, (3) when the device now holds more than one line,
a connection is open and the channel is 0, the buffer is taken for the
connection, and (4) the viewed channel becomes the received channel.
Returns the new state and the line handed to the connection, if any. -/
def Shell.on_run (s : ShellState) (recv : Option (Nat × Nat)) :
    ShellState × Option (List Char) :=
  match recv with
  | none => (s, none)
  | some (channel, next) =>
    match lookupDevice s.char_devices channel with
    | none => (s, none)
    | some dev0 =>
      let dev1 := if s.channel ≠ (channel : Int) ∧ channel ≠ 0 then dev0.take.2 else dev0
      let dev2 := dev1.write next
      let out :=
        if 1 < dev2.lines ∧ s.connection ∧ channel = 0 then
          (dev2.take.2, some dev2.take.1)
        else (dev2, none)
      ({ char_devices := updateDevice s.char_devices channel out.1,
         channel := (channel : Int),
         connection := s.connection }, out.2)

theorem lookupDevice_update_self (m : List (Nat × CharDevice)) (k : Nat)
    (v d : CharDevice) (h : lookupDevice m k = some d) :
    lookupDevice (updateDevice m k v) k = some v := by
  induction m with
  | nil => simp [lookupDevice] at h
  | cons p ps ih =>
    by_cases hk : (p.1 == k) = true
    · simp only [updateDevice, List.map_cons, if_pos hk, lookupDevice]
      rw [List.find?_cons_of_pos _ (by simp)]
      rfl
    · have hkf : (p.1 == k) = false := by simpa using hk
      have h2 : lookupDevice ps k = some d := by
        have h3 := h
        simp only [lookupDevice] at h3
        rw [List.find?_cons_of_neg _ (by simp [hkf])] at h3
        exact h3
      simp only [updateDevice, List.map_cons, hkf, if_false, lookupDevice]
      rw [List.find?_cons_of_neg _ (by simp [hkf])]
      exact ih h2

theorem lookupDevice_update_other (m : List (Nat × CharDevice)) (k k2 : Nat)
    (v : CharDevice) (h : k2 ≠ k) :
    lookupDevice (updateDevice m k v) k2 = lookupDevice m k2 := by
  induction m with
  | nil => rfl
  | cons p ps ih =>
    by_cases hk : (p.1 == k) = true
    · have hp1 : p.1 = k := by simpa using hk
      have hne : (k == k2) = false := by
        simp only [beq_eq_false_iff_ne, ne_eq]
        intro hc
        exact h hc.symm
      have hne2 : (p.1 == k2) = false := by rw [hp1]; exact hne
      simp only [updateDevice, List.map_cons, if_pos hk, lookupDevice]
      rw [List.find?_cons_of_neg _ (by simp [hne]), List.find?_cons_of_neg _ (by simp [hne2])]
      exact ih
    · have hkf : (p.1 == k) = false := by simpa using hk
      by_cases hp : (p.1 == k2) = true
      · simp only [updateDevice, List.map_cons, hkf, if_false, lookupDevice]
        rw [List.find?_cons_of_pos _ (by simp [hp]), List.find?_cons_of_pos _ (by simp [hp])]
        simp
      · have hpf : (p.1 == k2) = false := by simpa using hp
        simp only [updateDevice, List.map_cons, hkf, if_false, lookupDevice]
        rw [List.find?_cons_of_neg _ (by simp [hpf]), List.find?_cons_of_neg _ (by simp [hpf])]
        exact ih

/-- Device holding the single character `x` (prior content of channel 1). -/
def devX : CharDevice :=
  { buffer := ['x'], line_info := [1], cursor := 1, line := 0 }

/-- Device holding the single character `y` (prior content of channel 2). -/
def devY : CharDevice :=
  { buffer := ['y'], line_info := [1], cursor := 1, line := 0 }

/-- Shell state viewing channel 1, with output devices on channels 1 and 2
and no open connection. -/
def stC3 : ShellState :=
  { char_devices := [(1, devX), (2, devY)], channel := 1, connection := false }

/-- C3 counterexample: from `stC3` (viewing channel 1), a byte for channel
2 arrives.  Channel 2 is non-zero and differs from the viewed channel, so
the claim says the previously viewed device (channel 1) is drained via
`take`; but the code drains the device of the incoming channel: channel 1
still holds `x` untouched, while channel 2 lost its `y` and holds only
the newly written `z`. -/
theorem on_run_drains_incoming_not_previous :
    ((lookupDevice (Shell.on_run stC3 (some (2, 122))).1.char_devices 1).map
        CharDevice.buffer = some ['x']) ∧
    ((lookupDevice (Shell.on_run stC3 (some (2, 122))).1.char_devices 1).map
        CharDevice.buffer ≠ some []) ∧
    ((lookupDevice (Shell.on_run stC3 (some (2, 122))).1.char_devices 2).map
        CharDevice.buffer = some ['z']) ∧
    (Shell.on_run stC3 (some (2, 122))).1.channel = 2 := by
  decide

/-- C3 amended: when a `(channel, byte)` pair arrives for a non-zero
channel different from the currently viewed one and a device exists for
it, the device of the INCOMING channel is drained via `take` (resetting
it to the initial state) before the byte is written to it, the viewed
channel becomes the incoming channel, nothing is sent to the connection,
and every other device is untouched. -/
theorem on_run_channel_switch (s : ShellState) (c b : Nat) (d : CharDevice)
    (hc : c ≠ 0) (hch : s.channel ≠ (c : Int))
    (hd : lookupDevice s.char_devices c = some d) :
    lookupDevice (Shell.on_run s (some (c, b))).1.char_devices c =
      some (CharDevice.init.write b) ∧
    (Shell.on_run s (some (c, b))).1.channel = (c : Int) ∧
    (Shell.on_run s (some (c, b))).2 = none ∧
    ∀ c2, c2 ≠ c →
      lookupDevice (Shell.on_run s (some (c, b))).1.char_devices c2 =
        lookupDevice s.char_devices c2 := by
  have hcond : s.channel ≠ (c : Int) ∧ c ≠ 0 := ⟨hch, hc⟩
  have hnot : ¬(1 < (d.take.2.write b).lines ∧ s.connection = true ∧ c = 0) := by
    intro hcon
    exact hc hcon.2.2
  simp only [Shell.on_run, hd, if_pos hcond, if_neg hnot]
  refine ⟨?_, by trivial, by trivial, ?_⟩
  · exact lookupDevice_update_self _ _ _ _ hd
  · intro c2 hc2
    exact lookupDevice_update_other _ _ _ _ hc2

/-- Witness for the amended C3 theorem at `stC3`: the byte `z` for channel
2 resets channel 2 to a fresh device before the write, the viewed channel
becomes 2, nothing is sent, and the channel 1 device is untouched. -/
theorem on_run_channel_switch_witness :
    lookupDevice (Shell.on_run stC3 (some (2, 122))).1.char_devices 2 =
      some (CharDevice.init.write 122) ∧
    (Shell.on_run stC3 (some (2, 122))).1.channel = (2 : Int) ∧
    (Shell.on_run stC3 (some (2, 122))).2 = none ∧
    lookupDevice (Shell.on_run stC3 (some (2, 122))).1.char_devices 1 =
      lookupDevice stC3.char_devices 1 := by
  have h := on_run_channel_switch stC3 2 122 devY (by decide) (by decide) (by decide)
  exact ⟨h.1, h.2.1, h.2.2.1, h.2.2.2 1 (by decide)⟩

/-- A half-open byte span `[start, end)` into the tokenized source
(`logos::Span`). -/
abbrev Span := Nat × Nat

/-- Typed attribute values (`lifec::Value`) as produced by the v1 element
lexer.  Floating-point and base64 payloads are carried as the raw trimmed
text: their numeric and byte decodings are out of scope and no claim
depends on them. -/
inductive Value where
  | textBuffer (s : List Char)
  | symbol (s : List Char)
  | bool (b : Bool)
  | int (n : Int)
  | intPair (a b : Int)
  | intRange (a b c : Int)
  | float (raw : List Char)
  | floatPair (a b : List Char)
  | floatRange (a b c : List Char)
  | binaryVector (raw : List Char)
  | empty
deriving DecidableEq, Repr

/-- The whitespace class skipped by every lexer in the source
(the regex `[ \t\n\f]+`; note the carriage return is NOT in it). -/
def isWsChar (c : Char) : Bool :=
  c == ' ' || c == '\t' || c == '\n' || c == '\x0c'

/-- The character class trimmed by `str::trim` (ASCII part; the sources
only trim keyboard-entered text). -/
def isTrimWs (c : Char) : Bool :=
  c == ' ' || c == '\t' || c == '\n' || c == '\r' || c == '\x0b' || c == '\x0c'

/-- `str::trim`. -/
def trimChars (l : List Char) : List Char :=
  ((l.dropWhile isTrimWs).reverse.dropWhile isTrimWs).reverse

/-- Numeric value of a digit string. -/
def digitsToNat (l : List Char) : Nat :=
  l.foldl (fun a c => a * 10 + (c.toNat - 48)) 0

/-- A non-empty all-digit string, as a number. -/
def parseNatDigits (l : List Char) : Option Nat :=
  if l ≠ [] ∧ l.all Char.isDigit then some (digitsToNat l) else none

/-- `str::parse::<i32>`: optional sign, digits only, 32-bit range. -/
def parseI32 (l : List Char) : Option Int :=
  match l with
  | '+' :: ds => (parseNatDigits ds).bind
      (fun n => if n ≤ 2147483647 then some (n : Int) else none)
  | '-' :: ds => (parseNatDigits ds).bind
      (fun n => if n ≤ 2147483648 then some (-(n : Int)) else none)
  | ds => (parseNatDigits ds).bind
      (fun n => if n ≤ 2147483647 then some (n : Int) else none)

/-- `str::parse::<u32>`: optional plus sign, digits only, 32-bit range. -/
def parseU32 (l : List Char) : Option Nat :=
  match l with
  | '+' :: ds => (parseNatDigits ds).bind
      (fun n => if n ≤ 4294967295 then some n else none)
  | ds => (parseNatDigits ds).bind
      (fun n => if n ≤ 4294967295 then some n else none)

/-- `str::parse::<bool>`: exactly `true` or `false`. -/
def parseBool (l : List Char) : Option Bool :=
  if l = "true".toList then some true
  else if l = "false".toList then some false
  else none

/-- Syntactic approximation of `str::parse::<f32>` success (optional
sign, digits with at most one point; special forms omitted): IEEE-754
semantics are out of scope and no claim exercises a float path. -/
def parseF32ok (l : List Char) : Option (List Char) :=
  let body := match l with
    | '+' :: ds => ds
    | '-' :: ds => ds
    | ds => ds
  let intPart := body.takeWhile Char.isDigit
  match body.drop intPart.length with
  | [] => if intPart ≠ [] then some l else none
  | '.' :: frac =>
    if (intPart ≠ [] ∨ frac ≠ []) ∧ frac.all Char.isDigit then some l else none
  | _ => none

/-- Base64 alphabet check, a syntactic approximation of
`base64::decode` success; no claim exercises a binary-vector path. -/
def isBase64Char (c : Char) : Bool :=
  c.isAlphanum || c == '+' || c == '/' || c == '='

/-- Approximation of `base64::decode` success on the trimmed remainder. -/
def base64ok (l : List Char) : Bool :=
  l.all isBase64Char && l.length % 4 == 0

/-- Splits on commas, keeping empty parts (`str::split(",")`). -/
def splitComma : List Char → List (List Char)
  | [] => [[]]
  | c :: cs =>
    if c = ',' then [] :: splitComma cs
    else
      match splitComma cs with
      | l :: rest => (c :: l) :: rest
      | [] => [[c]]

/-- `from_comma_sep::<i32>`: trim, split on commas, keep the parts that
parse (failures are silently dropped by `filter_map`). -/
def commaSepI32 (rem : List Char) : List Int :=
  (splitComma (trimChars rem)).filterMap (fun part => parseI32 (trimChars part))

/-- `from_comma_sep::<f32>` under the syntactic float approximation. -/
def commaSepF32 (rem : List Char) : List (List Char) :=
  (splitComma (trimChars rem)).filterMap (fun part => parseF32ok (trimChars part))

/-- Length of the longest common prefix of two strings. -/
def commonPrefixLen : List Char → List Char → Nat
  | a :: as2, b :: bs => if a = b then commonPrefixLen as2 bs + 1 else 0
  | _, _ => 0

/-- The logos literal-token matcher at one position.  Logos walks the
token trie greedily and does not rewind consumed input on a failed longer
match: `consumed` is the length of the longest prefix of `rest` that is a
prefix of some token, and the token recognized is the longest one that is
itself a full prefix of `rest` (none means the error variant).  The repo
test pins this down: lexing ``` followed by a space and an identifier
yields the block-delimiter token with a span four characters long. -/
def trieMatch {α : Type} (toks : List (List Char × α)) (rest : List Char) :
    Nat × Option (List Char × α) :=
  let consumed := toks.foldl (fun m t => max m (commonPrefixLen t.1 rest)) 0
  let accepted := toks.foldl
    (fun acc t =>
      if t.1.isPrefixOf rest then
        match acc with
        | none => some t
        | some u => if u.1.length < t.1.length then some t else some u
      else acc)
    none
  (consumed, accepted)

/-- Elements of the v1 attribute-graph lexer
(`AttributeGraphElements` in src/runmd/v1_lexer.rs). -/
inductive AttributeGraphElements where
  | text (v : Value)
  | bool (v : Value)
  | int (v : Value)
  | intPair (v : Value)
  | intRange (v : Value)
  | float (v : Value)
  | floatPair (v : Value)
  | floatRange (v : Value)
  | binaryVector (v : Value)
  | symbolValue (v : Value)
  | empty
  | entity (n : Nat)
  | symbol (s : List Char)
  | name (s : List Char)
  | error
deriving DecidableEq, Repr

/-- Dispatch tags for the dotted type-tag tokens of the element lexer. -/
inductive ValueTag where
  | text
  | enable
  | disable
  | bool
  | int
  | intPair
  | intRange
  | float
  | floatPair
  | floatRange
  | bin
  | symbol
  | empty
deriving DecidableEq, Repr

/-- The dotted type-tag tokens of `AttributeGraphElements`, with their
dispatch tags (every `#[token]` literal of the derive). -/
def dotTokens : List (List Char × ValueTag) :=
  [(".text".toList, ValueTag.text), (".TEXT".toList, ValueTag.text),
   (".enable".toList, ValueTag.enable), (".disable".toList, ValueTag.disable),
   (".bool".toList, ValueTag.bool), (".BOOL".toList, ValueTag.bool),
   (".int".toList, ValueTag.int), (".INT".toList, ValueTag.int),
   (".int2".toList, ValueTag.intPair), (".INT_PAIR".toList, ValueTag.intPair),
   (".int3".toList, ValueTag.intRange), (".int_range".toList, ValueTag.intRange),
   (".INT_RANGE".toList, ValueTag.intRange),
   (".float".toList, ValueTag.float), (".FLOAT".toList, ValueTag.float),
   (".float2".toList, ValueTag.floatPair), (".FLOAT_PAIR".toList, ValueTag.floatPair),
   (".float3".toList, ValueTag.floatRange), (".FLOAT_RANGE".toList, ValueTag.floatRange),
   (".bin".toList, ValueTag.bin), (".base64".toList, ValueTag.bin),
   (".BINARY_VECTOR".toList, ValueTag.bin),
   (".symbol".toList, ValueTag.symbol),
   (".empty".toList, ValueTag.empty), (".EMPTY".toList, ValueTag.empty)]

/-- Runs the callback of a matched type-tag token on the remainder of the
lexed string, as the `graph_lexer` callbacks do; a callback returning
`None` turns the token into the error variant. -/
def applyValueTag (tag : ValueTag) (rem : List Char) : AttributeGraphElements :=
  match tag with
  | ValueTag.text => AttributeGraphElements.text (Value.textBuffer (trimChars rem))
  | ValueTag.enable => AttributeGraphElements.bool (Value.bool true)
  | ValueTag.disable => AttributeGraphElements.bool (Value.bool false)
  | ValueTag.bool =>
    match parseBool (trimChars rem) with
    | some b => AttributeGraphElements.bool (Value.bool b)
    | none => AttributeGraphElements.error
  | ValueTag.int =>
    match parseI32 (trimChars rem) with
    | some n => AttributeGraphElements.int (Value.int n)
    | none => AttributeGraphElements.error
  | ValueTag.intPair =>
    match (commaSepI32 rem).get? 0, (commaSepI32 rem).get? 1 with
    | some a, some b => AttributeGraphElements.intPair (Value.intPair a b)
    | _, _ => AttributeGraphElements.error
  | ValueTag.intRange =>
    match (commaSepI32 rem).get? 0, (commaSepI32 rem).get? 1, (commaSepI32 rem).get? 2 with
    | some a, some b, some c => AttributeGraphElements.intRange (Value.intRange a b c)
    | _, _, _ => AttributeGraphElements.error
  | ValueTag.float =>
    match parseF32ok (trimChars rem) with
    | some raw => AttributeGraphElements.float (Value.float raw)
    | none => AttributeGraphElements.error
  | ValueTag.floatPair =>
    match (commaSepF32 rem).get? 0, (commaSepF32 rem).get? 1 with
    | some a, some b => AttributeGraphElements.floatPair (Value.floatPair a b)
    | _, _ => AttributeGraphElements.error
  | ValueTag.floatRange =>
    match (commaSepF32 rem).get? 0, (commaSepF32 rem).get? 1, (commaSepF32 rem).get? 2 with
    | some a, some b, some c => AttributeGraphElements.floatRange (Value.floatRange a b c)
    | _, _, _ => AttributeGraphElements.error
  | ValueTag.bin =>
    if base64ok (trimChars rem) then
      AttributeGraphElements.binaryVector (Value.binaryVector (trimChars rem))
    else AttributeGraphElements.error
  | ValueTag.symbol => AttributeGraphElements.symbolValue (Value.symbol (trimChars rem))
  | ValueTag.empty => AttributeGraphElements.empty

/-- First character of the symbol regex `[A-Za-z]+[A-Za-z-._:0-9]*`. -/
def isSymbolStart (c : Char) : Bool :=
  c.isAlpha

/-- Continuation class of the symbol regex. -/
def isSymbolChar (c : Char) : Bool :=
  c.isAlpha || c == '-' || c == '.' || c == '_' || c == ':' || c.isDigit

/-- Continuation class of the name regex (hash, then letters,
underscore, the point-to-slash range, digits: the dash sits inside a
range, so the class holds the point and the slash but not the dash). -/
def isNameChar (c : Char) : Bool :=
  c.isAlpha || c == '_' || c == '.' || c == '/' || c.isDigit

/-- One `next()` step of the element lexer at position `p` of `src`:
skips whitespace, matches a dotted type tag, an entity number, a symbol
or a name, and falls back to the error variant; returns the element, its
span and the resume position.  Fuel only feeds the whitespace loop. -/
def elemNext (src : List Char) : Nat → Nat → Option (AttributeGraphElements × Span × Nat)
  | _, 0 => none
  | p, fuel + 1 =>
    match src.drop p with
    | [] => none
    | c :: rest2 =>
      if isWsChar c then
        elemNext src (p + ((src.drop p).takeWhile isWsChar).length) fuel
      else if c = '.' then
        let m := trieMatch dotTokens (src.drop p)
        match m.2 with
        | some t =>
          let e := p + m.1
          some (applyValueTag t.2 (src.drop e), (p, e), e)
        | none =>
          let e := p + max m.1 1
          some (AttributeGraphElements.error, (p, e), e)
      else if c.isDigit then
        let ds := (src.drop p).takeWhile Char.isDigit
        let e := p + ds.length
        match parseU32 ds with
        | some n => some (AttributeGraphElements.entity n, (p, e), e)
        | none => some (AttributeGraphElements.error, (p, e), e)
      else if isSymbolStart c then
        let body := rest2.takeWhile isSymbolChar
        let e := p + 1 + body.length
        some (AttributeGraphElements.symbol (c :: body), (p, e), e)
      else if c = '#' then
        let body := rest2.takeWhile isNameChar
        let e := p + 1 + body.length
        some (AttributeGraphElements.name body, (p, e), e)
      else
        some (AttributeGraphElements.error, (p, p + 1), p + 1)

/-- `elemNext` with enough fuel for its source. -/
def elemNextAt (src : List Char) (p : Nat) :
    Option (AttributeGraphElements × Span × Nat) :=
  elemNext src p (src.length + 1)

/-- Events of the v1 attribute-graph lexer (`AttributeGraphEvents`). -/
inductive AttributeGraphEvents where
  | add
  | findRemove
  | importEvent
  | copy
  | define
  | apply
  | edit
  | fromEvent
  | toEvent
  | publish
  | comment
  | blockDelimitter
  | error
deriving DecidableEq, Repr

/-- The literal tokens of the event lexer. -/
def eventTokens : List (List Char × AttributeGraphEvents) :=
  [("add".toList, AttributeGraphEvents.add),
   ("find_remove".toList, AttributeGraphEvents.findRemove),
   ("import".toList, AttributeGraphEvents.importEvent),
   ("copy".toList, AttributeGraphEvents.copy),
   ("define".toList, AttributeGraphEvents.define),
   ("apply".toList, AttributeGraphEvents.apply),
   ("edit".toList, AttributeGraphEvents.edit),
   ("from".toList, AttributeGraphEvents.fromEvent),
   ("to".toList, AttributeGraphEvents.toEvent),
   ("publish".toList, AttributeGraphEvents.publish),
   ("#".toList, AttributeGraphEvents.comment),
   ("-".toList, AttributeGraphEvents.comment),
   ("//".toList, AttributeGraphEvents.comment),
   ("``` md".toList, AttributeGraphEvents.comment),
   ("``` runmd".toList, AttributeGraphEvents.comment),
   ("```".toList, AttributeGraphEvents.blockDelimitter)]

/-- First token of the event lexer over a slice (the only use the source
makes of it: `AttributeGraphEvents::lexer(lexer.slice()).next()`). -/
def evNext (src : List Char) : Nat → Nat → Option AttributeGraphEvents
  | _, 0 => none
  | p, fuel + 1 =>
    match src.drop p with
    | [] => none
    | c :: _ =>
      if isWsChar c then
        evNext src (p + ((src.drop p).takeWhile isWsChar).length) fuel
      else
        match (trieMatch eventTokens (src.drop p)).2 with
        | some t => some t.2
        | none => some AttributeGraphEvents.error

/-- First event token of a slice. -/
def evFirst (slice : List Char) : Option AttributeGraphEvents :=
  evNext slice 0 (slice.length + 1)

/-- `get_value` from src/runmd.rs: the typed value carried by a value
element, `Empty` for the empty element, and nothing for entities,
symbols, names and errors. -/
def get_value : AttributeGraphElements → Option Value
  | AttributeGraphElements.text v => some v
  | AttributeGraphElements.bool v => some v
  | AttributeGraphElements.int v => some v
  | AttributeGraphElements.intPair v => some v
  | AttributeGraphElements.intRange v => some v
  | AttributeGraphElements.float v => some v
  | AttributeGraphElements.floatPair v => some v
  | AttributeGraphElements.floatRange v => some v
  | AttributeGraphElements.binaryVector v => some v
  | AttributeGraphElements.symbolValue v => some v
  | AttributeGraphElements.empty => some Value.empty
  | _ => none

/-- The value-carrying elements accepted by `on_attribute_value`
(the first arm of its inner match). -/
def isValueElement : AttributeGraphElements → Bool
  | AttributeGraphElements.text _ => true
  | AttributeGraphElements.bool _ => true
  | AttributeGraphElements.int _ => true
  | AttributeGraphElements.intPair _ => true
  | AttributeGraphElements.intRange _ => true
  | AttributeGraphElements.float _ => true
  | AttributeGraphElements.floatPair _ => true
  | AttributeGraphElements.floatRange _ => true
  | AttributeGraphElements.binaryVector _ => true
  | AttributeGraphElements.symbolValue _ => true
  | _ => false

/-- The runmd token variants (`Runmd` in src/runmd.rs), with the span
payloads their callbacks build. -/
inductive Runmd where
  | blockDelimitter (spans : List Span)
  | blockKeyword (spans : List Span)
  | attributeValue (sp : Span × Span)
  | comment
  | error
deriving DecidableEq, Repr

/-- The observable side effects of the runmd token callbacks, translated
from src/runmd.rs: the `add` path emits a trace log carrying the parsed
attribute name and typed value (or a warning when the value fails to
parse), the `define` path emits a trace log, and unsupported or
unparsed events emit warnings.  The source performs no other side
effect: in particular no callback writes to any state graph. -/
inductive Effect where
  | addTrace (nm : List Char) (v : Value)
  | addWarn
  | defineTrace (nm sym : List Char) (el : AttributeGraphElements)
  | eventWarnError
  | eventWarnUnsupported
deriving DecidableEq, Repr

/-- Dispatch tags for the outer runmd tokens. -/
inductive OuterTag where
  | delim
  | event
  | attr
  | commentTok
deriving DecidableEq, Repr

/-- The literal tokens of the runmd lexer with their callbacks: the
comment forms, the block delimiter, the block events and the attribute
value lead-in. -/
def outerTokens : List (List Char × OuterTag) :=
  [("``` runmd".toList, OuterTag.commentTok),
   ("``` md".toList, OuterTag.commentTok),
   ("```".toList, OuterTag.delim),
   ("add".toList, OuterTag.event),
   ("define".toList, OuterTag.event),
   (":".toList, OuterTag.event),
   ("+".toList, OuterTag.event),
   (".".toList, OuterTag.attr),
   ("-".toList, OuterTag.commentTok),
   ("#".toList, OuterTag.commentTok)]

/-- Position of the first line break, as the callbacks search for it:
`remainder().find(|c| c == '\r' || c == '\n')`. -/
def findEol (l : List Char) : Option Nat :=
  l.findIdx? (fun c => c == '\r' || c == '\n')

/-- One token step of the runmd lexer at a non-whitespace position `p`:
the matched variant with its payload, the final token span (after any
`bump` by the callback), the resume position, and the logged effects.
Callbacks returning `None` produce the error variant.  The arm for
events other than add, define and the error variant mirrors the source
`unreachable!` (the outer lexer only ever hands those slices the four
event literals, of which the one-character ones lex to the error
variant). -/
def runmdNextAt (src : List Char) (p : Nat) : Runmd × Span × Nat × List Effect :=
  let rest := src.drop p
  let m := trieMatch outerTokens rest
  match m.2 with
  | none =>
    let e := p + max m.1 1
    (Runmd.error, (p, e), e, [])
  | some t =>
    let e := p + m.1
    match t.2 with
    | OuterTag.commentTok =>
      match findEol (src.drop e) with
      | some eol => (Runmd.comment, (p, e + eol), e + eol, [])
      | none => (Runmd.error, (p, e), e, [])
    | OuterTag.delim =>
      match findEol (src.drop e) with
      | none => (Runmd.blockDelimitter [(p, e)], (p, e), e, [])
      | some eol =>
        let line := (src.drop e).take eol
        match elemNextAt line 0 with
        | some (AttributeGraphElements.symbol _, sp1, q1) =>
          match elemNextAt line q1 with
          | some (AttributeGraphElements.symbol _, sp2, _) =>
            (Runmd.blockDelimitter
              [(p, e), (e + sp1.1, e + sp1.2), (e + sp2.1, e + sp2.2)],
              (p, e + eol), e + eol, [])
          | none =>
            (Runmd.blockDelimitter [(p, e), (e + sp1.1, e + sp1.2)],
              (p, e + eol), e + eol, [])
          | some _ =>
            (Runmd.blockDelimitter [(p, e)], (p, e + eol), e + eol, [])
        | _ => (Runmd.blockDelimitter [(p, e)], (p, e + eol), e + eol, [])
    | OuterTag.attr =>
      match findEol (src.drop e) with
      | none => (Runmd.error, (p, e), e, [])
      | some eol =>
        let value := (src.drop p).take (m.1 + eol)
        match elemNextAt value 0 with
        | some (el, vsp, _) =>
          if isValueElement el then
            (Runmd.attributeValue ((p, e + vsp.2), (e + vsp.2, e + eol)),
              (p, e + eol), e + eol, [])
          else (Runmd.error, (p, e + eol), e + eol, [])
        | none => (Runmd.error, (p, e + eol), e + eol, [])
    | OuterTag.event =>
      match findEol (src.drop e) with
      | none => (Runmd.error, (p, e), e, [])
      | some eol =>
        let line := (src.drop e).take eol
        match evFirst (rest.take m.1) with
        | some AttributeGraphEvents.add =>
          match elemNextAt line 0 with
          | some (AttributeGraphElements.symbol nm, _, q1) =>
            match elemNextAt line q1 with
            | some (value, vsp, _) =>
              match get_value value with
              | some v =>
                (Runmd.blockKeyword [(p, e), (e, e + vsp.1)],
                  (p, e + vsp.1), e + vsp.1, [Effect.addTrace nm v])
              | none =>
                (Runmd.blockKeyword [(p, e)],
                  (p, e + vsp.1), e + vsp.1, [Effect.addWarn])
            | none => (Runmd.blockKeyword [(p, e)], (p, e), e, [])
          | _ => (Runmd.blockKeyword [(p, e)], (p, e), e, [])
        | some AttributeGraphEvents.define =>
          match elemNextAt line 0 with
          | some (AttributeGraphElements.symbol nm, nsp, q1) =>
            match elemNextAt line q1 with
            | some (AttributeGraphElements.symbol sym, ssp, q2) =>
              match elemNextAt line q2 with
              | some (value, _, _) =>
                (Runmd.blockKeyword
                  [(p, e), (nsp.1 + e, nsp.2 + e + 1), (ssp.1 + e, ssp.2 + e + 1)],
                  (p, e + ssp.2), e + ssp.2, [Effect.defineTrace nm sym value])
              | none => (Runmd.blockKeyword [(p, e)], (p, e), e, [])
            | _ => (Runmd.blockKeyword [(p, e)], (p, e), e, [])
          | _ => (Runmd.blockKeyword [(p, e)], (p, e), e, [])
        | some AttributeGraphEvents.error =>
          (Runmd.blockKeyword [(p, e)], (p, e), e, [Effect.eventWarnError])
        | some _ => (Runmd.blockKeyword [(p, e)], (p, e), e, [])
        | none =>
          (Runmd.blockKeyword [(p, e)], (p, e), e, [Effect.eventWarnUnsupported])

/-- The runmd lexer loop: skips whitespace, emits one token per step
(with its final span), and collects the logged effects in order. -/
def runmdLexGo (src : List Char) : Nat → Nat → List (Runmd × Span) × List Effect
  | _, 0 => ([], [])
  | p, fuel + 1 =>
    match src.drop p with
    | [] => ([], [])
    | c :: _ =>
      if isWsChar c then
        runmdLexGo src (p + ((src.drop p).takeWhile isWsChar).length) fuel
      else
        let r := runmdNextAt src p
        let r2 := runmdLexGo src (max r.2.2.1 (p + 1)) fuel
        ((r.1, r.2.1) :: r2.1, r.2.2.2 ++ r2.2)

/-- Tokens of the runmd lexer over a whole source, with effects. -/
def runmdLex (src : List Char) : List (Runmd × Span) × List Effect :=
  runmdLexGo src 0 (src.length + 1)

/-- Semantic highlighting tokens (`Token` in src/theme.rs). -/
inductive Token where
  | Keyword
  | Bracket
  | Operator
  | Modifier
  | Identifier
  | Literal
  | Comment
  | Whitespace
  | Newline
  | Custom (s : List Char)
deriving DecidableEq, Repr

/-- The `Into<Vec<ThemeToken>>` conversion of a runmd token
(src/runmd.rs): a three-span delimiter yields bracket, identifier and
keyword; a two-span delimiter yields bracket and keyword; block keywords
yield keyword, identifier and keyword for the spans present; attribute
values yield a keyword and a literal; comments yield one spanless
comment token; the error variant yields nothing. -/
def Runmd.intoTokens : Runmd → List (Token × Option Span)
  | Runmd.blockDelimitter toks =>
    (match toks.get? 0 with
     | some d => [(Token.Bracket, some d)]
     | none => []) ++
    (if toks.length = 3 then
      (match toks.get? 1 with
       | some i => [(Token.Identifier, some i)]
       | none => []) ++
      (match toks.get? 2 with
       | some s2 => [(Token.Keyword, some s2)]
       | none => [])
    else if toks.length = 2 then
      match toks.get? 1 with
      | some s2 => [(Token.Keyword, some s2)]
      | none => []
    else [])
  | Runmd.blockKeyword spans =>
    (match spans.get? 0 with
     | some s => [(Token.Keyword, some s)]
     | none => []) ++
    (match spans.get? 1 with
     | some s => [(Token.Identifier, some s)]
     | none => []) ++
    (match spans.get? 2 with
     | some s => [(Token.Keyword, some s)]
     | none => [])
  | Runmd.attributeValue sp => [(Token.Keyword, some sp.1), (Token.Literal, some sp.2)]
  | Runmd.comment => [(Token.Comment, none)]
  | Runmd.error => []

/-- One token push of the `Theme::parse` loop: a spanless theme token
takes the span of the lexer token it came from, and the running cursor
moves to the end of every span pushed. -/
def themePiece (lexSpan : Span) (acc : List (Token × Span) × Nat)
    (piece : Token × Option Span) : List (Token × Span) × Nat :=
  let sp := piece.2.getD lexSpan
  (acc.1 ++ [(piece.1, sp)], sp.2)

/-- The `Theme::parse` loop over the lexer tokens, threading the cursor. -/
def themeGo : List (Runmd × Span) → Nat → List (Token × Span) × Nat
  | [], cursor => ([], cursor)
  | t :: rest, cursor =>
    let r1 := t.1.intoTokens.foldl (themePiece t.2) ([], cursor)
    let r2 := themeGo rest r1.2
    (r1.1 ++ r2.1, r2.2)

/-- `Theme::parse` for the runmd grammar (src/theme.rs): the flat list of
spanned theme tokens, with the synthetic trailing whitespace token from
the final cursor to the end of the source appended. -/
def Theme.parse (src : List Char) : List (Token × Span) :=
  let r := themeGo (runmdLex src).1 0
  r.1 ++ [(Token.Whitespace, (r.2, src.length))]

/-- The two-line scenario from the spec: a block delimiter line naming a
demo process block, then an add event with a text-typed value. -/
def scenarioSrc : List Char :=
  ("``` demo process\nadd test_val .text test hello world\n").toList

/-- C1: running the tokenizer over the scenario source parses the add
event completely, recovering the attribute name `test_val` and the text
value `test hello world` - but the only side effect the source performs
with them is a trace-level log.  The effect list below is the complete
record of the side effects of every callback, translated from
src/runmd.rs, and it contains no state-graph write; the token output is
exactly the highlighting spans. -/
theorem add_event_writes_no_graph :
    (runmdLex scenarioSrc).2 =
      [Effect.addTrace ("test_val".toList)
        (Value.textBuffer ("test hello world".toList))] ∧
    Theme.parse scenarioSrc =
      [(Token.Bracket, (0, 4)), (Token.Identifier, (4, 8)), (Token.Keyword, (9, 16)),
       (Token.Keyword, (17, 20)), (Token.Identifier, (20, 30)),
       (Token.Keyword, (30, 36)), (Token.Literal, (36, 52)),
       (Token.Whitespace, (52, 53))] := by
  decide

/-- An attribute-value line whose value fails to parse under the
declared int type tag. -/
def badValSrc : List Char :=
  (".int abc\n").toList

/-- C2 counterexample: on `.int abc` the failed value parse turns the
whole line into the error token, whose theme conversion is empty, so the
parse output holds NO highlighting token for the line - only the
synthetic trailing whitespace token - contradicting the claim that the
token is still emitted.  No value is written anywhere (the effect list
is empty). -/
theorem unparseable_value_no_token :
    Theme.parse badValSrc = [(Token.Whitespace, (0, 9))] ∧
    (∀ t ∈ Theme.parse badValSrc, t.1 ≠ Token.Keyword ∧ t.1 ≠ Token.Literal) ∧
    (runmdLex badValSrc).2 = [] := by
  decide

/-- A source with leading whitespace before its only token. -/
def gapSrc : List Char :=
  (" add\n").toList

/-- C9 counterexample: the spans of ` add` do not cover position 0 (the
skipped leading space belongs to no span), so concatenating the span
slices does not reconstruct a covering of the whole source. -/
theorem theme_parse_gap :
    Theme.parse gapSrc = [(Token.Keyword, (1, 4)), (Token.Whitespace, (4, 5))] ∧
    ¬(∀ i < gapSrc.length, ∃ t ∈ Theme.parse gapSrc, t.2.1 ≤ i ∧ i < t.2.2) := by
  decide

theorem themePiece_foldl_cursor (pieces : List (Token × Option Span)) (lexSpan : Span)
    (acc : List (Token × Span) × Nat) (c0 : Nat)
    (h : acc.2 = ((acc.1.getLast?).map (fun t => t.2.2)).getD c0) :
    (pieces.foldl (themePiece lexSpan) acc).2 =
      (((pieces.foldl (themePiece lexSpan) acc).1.getLast?).map (fun t => t.2.2)).getD c0 := by
  induction pieces generalizing acc with
  | nil => exact h
  | cons pc rest ih =>
    apply ih
    simp [themePiece, List.getLast?_concat]

theorem themeGo_cursor (l : List (Runmd × Span)) (c0 : Nat) :
    (themeGo l c0).2 = (((themeGo l c0).1.getLast?).map (fun t => t.2.2)).getD c0 := by
  induction l generalizing c0 with
  | nil => simp [themeGo]
  | cons t rest ih =>
    simp only [themeGo]
    have h1 := themePiece_foldl_cursor t.1.intoTokens t.2 ([], c0) c0 (by simp)
    have h2 := ih (t.1.intoTokens.foldl (themePiece t.2) ([], c0)).2
    cases hr : (themeGo rest (t.1.intoTokens.foldl (themePiece t.2) ([], c0)).2).1 with
    | nil =>
      rw [hr] at h2
      simp only [hr, List.append_nil, List.getLast?_nil, Option.map_none, Option.getD_none] at h2 ⊢
      rw [h2]
      exact h1
    | cons x xs =>
      rw [hr] at h2
      rw [List.getLast?_append]
      obtain ⟨y, hl⟩ : ∃ y, (x :: xs).getLast? = some y := by
        cases hg : (x :: xs).getLast? with
        | some y => exact ⟨y, rfl⟩
        | none =>
          rw [List.getLast?_eq_none_iff] at hg
          exact absurd hg (by simp)
      rw [hl] at h2 ⊢
      simp only [Option.or_some, Option.map_some, Option.getD_some] at h2 ⊢
      exact h2

/-- C9 amended: for every source, `Theme::parse` output is non-empty and
ends with the synthetic token tagged Whitespace, spanning from the final
cursor - which is the end of the last span emitted before it, or 0 when
no token was emitted - to the end of the source.  The spans need not
cover the rest of the source: whitespace skipped before a token belongs
to no span (the renderer fills the gaps). -/
theorem theme_parse_trailing (src : List Char) :
    Theme.parse src ≠ [] ∧
    (Theme.parse src).getLast? =
      some (Token.Whitespace, ((themeGo (runmdLex src).1 0).2, src.length)) ∧
    (themeGo (runmdLex src).1 0).2 =
      ((((Theme.parse src).dropLast).getLast?).map (fun t => t.2.2)).getD 0 := by
  refine ⟨by simp [Theme.parse], ?_, ?_⟩
  · simp [Theme.parse, List.getLast?_concat]
  · rw [show ((Theme.parse src).dropLast) = (themeGo (runmdLex src).1 0).1 from by
      simp [Theme.parse]]
    exact themeGo_cursor (runmdLex src).1 0

theorem findIdx?_append_no_hit (p : Char → Bool) (l1 l2 : List Char) (i : Nat)
    (h : ∀ c ∈ l1, p c = false) :
    List.findIdx? p (l1 ++ l2) i = List.findIdx? p l2 (i + l1.length) := by
  induction l1 generalizing i with
  | nil => simp
  | cons a as ih =>
    rw [List.cons_append, List.findIdx?_cons, if_neg (by simp [h a (by simp)])]
    rw [ih (i + 1) (fun c hc => h c (by simp [hc]))]
    congr 1
    simp
    omega

theorem runmdLexGo_nil (src : List Char) (p fuel f2 : Nat) (hf : fuel = f2 + 1)
    (hd : src.drop p = []) : runmdLexGo src p fuel = ([], []) := by
  subst hf
  simp only [runmdLexGo, hd]

theorem runmdLexGo_ws (src : List Char) (p fuel f2 : Nat) (c : Char) (tl : List Char)
    (hf : fuel = f2 + 1) (hd : src.drop p = c :: tl) (hw : isWsChar c = true) :
    runmdLexGo src p fuel =
      runmdLexGo src (p + ((c :: tl).takeWhile isWsChar).length) f2 := by
  subst hf
  simp only [runmdLexGo, hd, hw]
  simp

theorem runmdLexGo_tok (src : List Char) (p fuel f2 : Nat) (c : Char) (tl : List Char)
    (hf : fuel = f2 + 1) (hd : src.drop p = c :: tl) (hw : isWsChar c = false) :
    runmdLexGo src p fuel =
      (((runmdNextAt src p).1, (runmdNextAt src p).2.1) ::
          (runmdLexGo src (max (runmdNextAt src p).2.2.1 (p + 1)) f2).1,
        (runmdNextAt src p).2.2.2 ++
          (runmdLexGo src (max (runmdNextAt src p).2.2.1 (p + 1)) f2).2) := by
  subst hf
  simp only [runmdLexGo, hd, hw]
  simp

theorem commonPrefixLen_append (t l1 v : List Char)
    (h : commonPrefixLen t l1 < l1.length ∨ t.length ≤ commonPrefixLen t l1) :
    commonPrefixLen t (l1 ++ v) = commonPrefixLen t l1 := by
  induction t generalizing l1 with
  | nil => simp [commonPrefixLen]
  | cons a as ih =>
    cases l1 with
    | nil =>
      simp only [commonPrefixLen, List.length_nil, List.length_cons] at h
      omega
    | cons b bs =>
      by_cases hab : a = b
      · subst hab
        simp only [commonPrefixLen, List.cons_append, if_pos rfl, List.length_cons,
          eq_self_iff_true, if_true] at h ⊢
        have h2 : commonPrefixLen as bs < bs.length ∨ as.length ≤ commonPrefixLen as bs := by
          omega
        show commonPrefixLen as (bs ++ v) + 1 = commonPrefixLen as bs + 1
        rw [ih bs h2]
      · simp only [List.cons_append, commonPrefixLen, if_neg hab]

theorem isPrefixOf_eq_commonPrefixLen (t l : List Char) :
    t.isPrefixOf l = decide (commonPrefixLen t l = t.length) := by
  induction t generalizing l with
  | nil => simp [List.isPrefixOf, commonPrefixLen]
  | cons a as ih =>
    cases l with
    | nil => simp [List.isPrefixOf, commonPrefixLen]
    | cons b bs =>
      by_cases hab : a = b
      · subst hab
        simp only [List.isPrefixOf, commonPrefixLen, if_pos rfl, beq_self_eq_true,
          Bool.true_and, List.length_cons, eq_self_iff_true, if_true]
        rw [ih bs]
        simp
      · have hf : (a == b) = false := by simpa using hab
        simp [List.isPrefixOf, commonPrefixLen, hf, hab]

theorem foldl_cpl_append {α : Type} (l1 v : List Char) (toks : List (List Char × α)) :
    ∀ acc : Nat,
      (∀ t ∈ toks, commonPrefixLen t.1 l1 < l1.length ∨ t.1.length ≤ commonPrefixLen t.1 l1) →
      toks.foldl (fun m t => max m (commonPrefixLen t.1 (l1 ++ v))) acc =
        toks.foldl (fun m t => max m (commonPrefixLen t.1 l1)) acc := by
  induction toks with
  | nil => intro acc h; rfl
  | cons t ts ih =>
    intro acc h
    simp only [List.foldl_cons]
    rw [commonPrefixLen_append t.1 l1 v (h t (by simp))]
    exact ih _ (fun u hu => h u (by simp [hu]))

theorem foldl_accept_append {α : Type} (l1 v : List Char) (toks : List (List Char × α)) :
    ∀ acc : Option (List Char × α),
      (∀ t ∈ toks, commonPrefixLen t.1 l1 < l1.length ∨ t.1.length ≤ commonPrefixLen t.1 l1) →
      toks.foldl
        (fun acc t =>
          if t.1.isPrefixOf (l1 ++ v) then
            match acc with
            | none => some t
            | some u => if u.1.length < t.1.length then some t else some u
          else acc) acc =
        toks.foldl
          (fun acc t =>
            if t.1.isPrefixOf l1 then
              match acc with
              | none => some t
              | some u => if u.1.length < t.1.length then some t else some u
            else acc) acc := by
  induction toks with
  | nil => intro acc h; rfl
  | cons t ts ih =>
    intro acc h
    simp only [List.foldl_cons]
    rw [isPrefixOf_eq_commonPrefixLen, isPrefixOf_eq_commonPrefixLen,
      commonPrefixLen_append t.1 l1 v (h t (by simp))]
    exact ih _ (fun u hu => h u (by simp [hu]))

theorem trieMatch_append {α : Type} (toks : List (List Char × α)) (l1 v : List Char)
    (h : ∀ t ∈ toks, commonPrefixLen t.1 l1 < l1.length ∨ t.1.length ≤ commonPrefixLen t.1 l1) :
    trieMatch toks (l1 ++ v) = trieMatch toks l1 := by
  simp only [trieMatch]
  rw [foldl_cpl_append l1 v toks 0 h, foldl_accept_append l1 v toks none h]

theorem dot_tokens_space_cond :
    ∀ t ∈ dotTokens, ∀ u ∈ dotTokens,
      commonPrefixLen u.1 (t.1 ++ [' ']) < (t.1 ++ [' ']).length ∨
      u.1.length ≤ commonPrefixLen u.1 (t.1 ++ [' ']) := by
  decide

theorem trieMatch_dot_space :
    ∀ t ∈ dotTokens, trieMatch dotTokens (t.1 ++ [' ']) = (t.1.length, some t) := by
  decide

/-- Any declared type-tag token followed by a space and arbitrary further
text is matched by the element lexer exactly as that token: no token of
the lexer contains a space, so neither the trie walk nor a longer match
can extend past it. -/
theorem trieMatch_dot_tag (t : List Char × ValueTag) (ht : t ∈ dotTokens) (v : List Char) :
    trieMatch dotTokens (t.1 ++ ' ' :: v) = (t.1.length, some t) := by
  rw [show t.1 ++ ' ' :: v = (t.1 ++ [' ']) ++ v from by simp]
  rw [trieMatch_append _ _ _ (dot_tokens_space_cond t ht)]
  exact trieMatch_dot_space t ht

theorem dot_tokens_head : ∀ t ∈ dotTokens, t.1.head? = some '.' := by
  decide

theorem dot_tokens_no_break :
    ∀ t ∈ dotTokens, ∀ c ∈ t.1, (c == '\r' || c == '\n') = false := by
  decide

set_option maxHeartbeats 1000000 in
/-- C2 amended: for EVERY declared type-tag token of the element lexer
(all 25 spellings, `.bool` and `.int` included) and every value text `v`
free of line breaks, if the value fails to parse under the declared tag -
stated as the tag's own callback on the remainder the lexer hands it
returning the error element - then the line `.{type-tag} {value}` lexes
to the error token: the tokenizer emits NO highlighting token for the
line (the parse output is only the synthetic trailing whitespace token),
and nothing is written to the state graph (the effect list of the whole
scan is empty). -/
theorem attr_value_parse_failure (t : List Char × ValueTag) (v : List Char)
    (ht : t ∈ dotTokens)
    (hv : ∀ c ∈ v, (c == '\r' || c == '\n') = false)
    (hfail : applyValueTag t.2 (' ' :: v) = AttributeGraphElements.error) :
    Theme.parse (t.1 ++ ' ' :: (v ++ ['\n'])) =
      [(Token.Whitespace, (0, t.1.length + v.length + 2))] ∧
    (runmdLex (t.1 ++ ' ' :: (v ++ ['\n']))).2 = [] := by
  obtain ⟨tagRest, htr⟩ : ∃ r, t.1 = '.' :: r := by
    have hh := dot_tokens_head t ht
    cases hx : t.1 with
    | nil => rw [hx] at hh; simp at hh
    | cons a r =>
      rw [hx] at hh
      simp only [List.head?_cons, Option.some.injEq] at hh
      exact ⟨r, by rw [hh]⟩
  rw [htr]
  simp only [List.cons_append, List.length_cons]
  rw [show tagRest.length + 1 + v.length + 2 = tagRest.length + v.length + 3 from by omega]
  have hsrc : '.' :: (tagRest ++ ' ' :: (v ++ ['\n'])) =
      ('.' :: (tagRest ++ ' ' :: v)) ++ ['\n'] := by simp
  have hm : trieMatch outerTokens ('.' :: (tagRest ++ ' ' :: (v ++ ['\n']))) =
      (1, some (".".toList, OuterTag.attr)) := by
    rw [show '.' :: (tagRest ++ ' ' :: (v ++ ['\n'])) =
      ['.'] ++ (tagRest ++ ' ' :: (v ++ ['\n'])) from rfl]
    rw [trieMatch_append _ _ _ (by decide)]
    decide
  have heol : findEol (tagRest ++ ' ' :: (v ++ ['\n'])) =
      some (tagRest.length + v.length + 1) := by
    have hl : tagRest ++ ' ' :: (v ++ ['\n']) = (tagRest ++ ' ' :: v) ++ ['\n'] := by simp
    rw [findEol, hl, findIdx?_append_no_hit]
    · rw [List.findIdx?_cons, if_pos (by decide)]
      simp only [List.length_append, List.length_cons]
      congr 1
      omega
    · intro c hc
      simp only [List.mem_append, List.mem_cons] at hc
      rcases hc with h | h | h
      · exact dot_tokens_no_break t ht c (by rw [htr]; exact List.mem_cons_of_mem _ h)
      · subst h; rfl
      · exact hv c h
  have htrie2 : trieMatch dotTokens ('.' :: (tagRest ++ ' ' :: v)) =
      (tagRest.length + 1, some t) := by
    have h0 := trieMatch_dot_tag t ht v
    rw [htr] at h0
    simpa using h0
  have helem : elemNextAt ('.' :: (tagRest ++ ' ' :: v)) 0 =
      some (AttributeGraphElements.error, (0, tagRest.length + 1), tagRest.length + 1) := by
    have hlen : ('.' :: (tagRest ++ ' ' :: v)).length = tagRest.length + v.length + 2 := by
      simp
      omega
    rw [elemNextAt, hlen, elemNext]
    rw [List.drop_zero]
    dsimp only
    rw [if_neg (by decide : ¬(isWsChar '.' = true)), if_pos rfl, htrie2]
    dsimp only
    rw [show List.drop (0 + (tagRest.length + 1)) ('.' :: (tagRest ++ ' ' :: v)) =
      ' ' :: v from by rw [Nat.zero_add, List.drop_succ_cons, List.drop_left]]
    rw [hfail]
    simp
  have hrun : runmdNextAt ('.' :: (tagRest ++ ' ' :: (v ++ ['\n']))) 0 =
      (Runmd.error, (0, tagRest.length + v.length + 2),
        tagRest.length + v.length + 2, []) := by
    rw [runmdNextAt]
    simp only [List.drop_zero, hm]
    have hd1 : ('.' :: (tagRest ++ ' ' :: (v ++ ['\n']))).drop (0 + 1) =
        tagRest ++ ' ' :: (v ++ ['\n']) := rfl
    simp only [hd1, heol]
    have hval : ('.' :: (tagRest ++ ' ' :: (v ++ ['\n']))).take
        (1 + (tagRest.length + v.length + 1)) = '.' :: (tagRest ++ ' ' :: v) := by
      rw [hsrc]
      apply List.take_left'
      simp only [List.length_cons, List.length_append]
      omega
    simp only [hval, helem]
    rw [show isValueElement AttributeGraphElements.error = false from rfl]
    simp only [Bool.false_eq_true, if_false]
    have h1 : 0 + 1 + (tagRest.length + v.length + 1) = tagRest.length + v.length + 2 := by
      omega
    rw [h1]
  have hlex : runmdLex ('.' :: (tagRest ++ ' ' :: (v ++ ['\n']))) =
      ([(Runmd.error, (0, tagRest.length + v.length + 2))], []) := by
    rw [runmdLex]
    have hlen : ('.' :: (tagRest ++ ' ' :: (v ++ ['\n']))).length =
        tagRest.length + v.length + 3 := by
      simp
      omega
    rw [hlen]
    have hd2 : ('.' :: (tagRest ++ ' ' :: (v ++ ['\n']))).drop
        (tagRest.length + v.length + 2) = ['\n'] := by
      rw [hsrc]
      apply List.drop_left'
      simp only [List.length_cons, List.length_append]
      omega
    have hd3 : ('.' :: (tagRest ++ ' ' :: (v ++ ['\n']))).drop
        (tagRest.length + v.length + 2 + 1) = [] := by
      apply List.drop_eq_nil_of_le
      simp only [List.length_cons, List.length_append, List.length_nil]
      omega
    rw [runmdLexGo_tok ('.' :: (tagRest ++ ' ' :: (v ++ ['\n']))) 0
      (tagRest.length + v.length + 3 + 1) (tagRest.length + v.length + 3) '.'
      (tagRest ++ ' ' :: (v ++ ['\n'])) rfl (List.drop_zero _) rfl]
    rw [hrun]
    dsimp only
    rw [show max (tagRest.length + v.length + 2) (0 + 1) =
      tagRest.length + v.length + 2 from by omega]
    rw [runmdLexGo_ws ('.' :: (tagRest ++ ' ' :: (v ++ ['\n'])))
      (tagRest.length + v.length + 2) (tagRest.length + v.length + 3)
      (tagRest.length + v.length + 2) '\n' [] (by omega) hd2 rfl]
    rw [show (List.takeWhile isWsChar ['\n']).length = 1 from rfl]
    rw [runmdLexGo_nil ('.' :: (tagRest ++ ' ' :: (v ++ ['\n'])))
      (tagRest.length + v.length + 2 + 1) (tagRest.length + v.length + 2)
      (tagRest.length + v.length + 1) (by omega) hd3]
    simp
  constructor
  · rw [Theme.parse, hlex]
    have hgo : themeGo [(Runmd.error, ((0 : Nat), tagRest.length + v.length + 2))] 0 =
        ([], 0) := by
      simp [themeGo, Runmd.intoTokens]
    rw [hgo]
    have hlen : ('.' :: (tagRest ++ ' ' :: (v ++ ['\n']))).length =
        tagRest.length + v.length + 3 := by
      simp
      omega
    rw [hlen]
    simp
  · rw [hlex]

/-- Witness for the amended C2 theorem at two concrete failing lines,
covering the boolean case the original claim names and the int case:
`.bool maybe` and `.int abc` each yield only the synthetic trailing
whitespace token and an empty effect list. -/
theorem attr_value_parse_failure_witness :
    (Theme.parse (".bool".toList ++ ' ' :: ("maybe".toList ++ ['\n'])) =
        [(Token.Whitespace, (0, ".bool".toList.length + "maybe".toList.length + 2))] ∧
      (runmdLex (".bool".toList ++ ' ' :: ("maybe".toList ++ ['\n']))).2 = []) ∧
    (Theme.parse (".int".toList ++ ' ' :: ("abc".toList ++ ['\n'])) =
        [(Token.Whitespace, (0, ".int".toList.length + "abc".toList.length + 2))] ∧
      (runmdLex (".int".toList ++ ' ' :: ("abc".toList ++ ['\n']))).2 = []) :=
  ⟨attr_value_parse_failure (".bool".toList, ValueTag.bool) ("maybe".toList)
      (by decide) (by decide) (by decide),
    attr_value_parse_failure (".int".toList, ValueTag.int) ("abc".toList)
      (by decide) (by decide) (by decide)⟩
